import Mathlib

/-!
Shallow embedding of the unPAC FPAC container codec.

Bytes are modelled as `Nat` (each in `0..255` on concrete inputs), byte
buffers as `List Nat`, and the Rust `usize`/`u32` arithmetic as `Nat`
arithmetic (no subtraction below zero and no overflow occurs on the paths
embedded here).  Fallible parsing is modelled with `Option`/an explicit
result type; the out-of-bounds slice `&original_input[data_start..]`
(which panics in Rust when `data_start` exceeds the buffer length) is
modelled by the distinguished outcome `ParseResult.crash`.
-/

/-! ## src/utils.rs -/

/-- Embeds `utils::to_fixed_length` (src/utils.rs lines 1-15): truncate the
byte representation to `size` bytes, then right-pad with zero bytes up to
`size`. -/
def to_fixed_length (s : List Nat) (size : Nat) : List Nat :=
  let bytes := s.take size
  bytes ++ List.replicate (size - bytes.length) 0

/-- Embeds `utils::pad_to_nearest` (src/utils.rs lines 17-27): `0` when
`size` is a multiple of `step`, otherwise `size + (step - size % step)`. -/
def pad_to_nearest (size step : Nat) : Nat :=
  if size % step = 0 then 0 else size + (step - size % step)

/-- Embeds `utils::pad_to_nearest_with_excess` (src/utils.rs lines 29-34):
always `size + (step - size % step)`. -/
def pad_to_nearest_with_excess (size step : Nat) : Nat :=
  size + (step - size % step)

/-- Embeds `utils::needed_to_align` (src/utils.rs lines 36-43): the zero
padding needed to reach the next multiple of `step`, `0` when aligned. -/
def needed_to_align (size step : Nat) : Nat :=
  if size % step = 0 then 0 else step - size % step

/-- Embeds `utils::needed_to_align_with_excess` (src/utils.rs lines 45-50):
always `step - size % step`, a full `step` when `size` is aligned. -/
def needed_to_align_with_excess (size step : Nat) : Nat :=
  step - size % step

/-! ## src/pac.rs : the PacMeta model -/

/-- Embeds `PacMetaEntry` (src/pac.rs): `file_name` is the UTF-8 byte
sequence of the Rust `String` (so `file_name.length` is Rust's
`file_name.len()`). -/
structure PacMetaEntry where
  file_name : List Nat
  file_id : Nat
deriving DecidableEq, Repr

/-- Embeds `PacMeta` (src/pac.rs). -/
structure PacMeta where
  unknown : Nat
  file_entries : List PacMetaEntry
deriving DecidableEq, Repr

/-- Embeds `PacMeta::string_size` (src/pac.rs lines 30-41): the maximum
file-name byte length over the entries, rounded with
`pad_to_nearest_with_excess (-, 4)`; `none` when there are no entries. -/
def string_size (m : PacMeta) : Option Nat :=
  match (m.file_entries.map (fun e => e.file_name.length)).max? with
  | some max_unaligned => some (pad_to_nearest_with_excess max_unaligned 4)
  | none => none

/-- Embeds `PacMeta::entry_size` (src/pac.rs lines 42-51): the single entry
record size `pad_to_nearest (string_size + 0xC) 0x10` times the number of
entries; `none` when `string_size` is `none`. -/
def entry_size (m : PacMeta) : Option Nat :=
  match string_size m with
  | some s => some (pad_to_nearest (s + 12) 16 * m.file_entries.length)
  | none => none

/-- Little-endian byte encoding of a `u32` value, as
`byteorder::WriteBytesExt::write_u32::<LE>` produces it. -/
def u32le (n : Nat) : List Nat :=
  [n % 256, n / 256 % 256, n / 65536 % 256, n / 16777216 % 256]

/-- Embeds `PacMetaEntry::to_entry_bytes` (src/pac.rs lines 62-77): the
fixed-length name, then `file_id`, `offset`, `file_size` as little-endian
u32, then `needed_to_align_with_excess` zero bytes. -/
def to_entry_bytes (e : PacMetaEntry) (offset file_size : Nat) (str_size : Nat) :
    List Nat :=
  let entry := to_fixed_length e.file_name str_size
    ++ u32le e.file_id ++ u32le offset ++ u32le file_size
  let leftover_nulls := needed_to_align_with_excess entry.length 16
  entry ++ List.replicate leftover_nulls 0

/-! ## src/pac/parser.rs : nom-based decode -/

/-- Value of nom's `le_u32` on the first four bytes (little endian). -/
def leVal (t : List Nat) : Nat :=
  t.getD 0 0 + 256 * t.getD 1 0 + 65536 * t.getD 2 0 + 16777216 * t.getD 3 0

/-- Embeds nom's `number::complete::le_u32`: consumes four bytes and
returns `(rest, value)`, failing on a shorter input. -/
def le_u32 (t : List Nat) : Option (List Nat × Nat) :=
  if 4 ≤ t.length then some (t.drop 4, leVal t) else none

/-- Embeds nom's `bytes::complete::take n`: consumes exactly `n` bytes,
failing on a shorter input. -/
def takeBytes (n : Nat) (t : List Nat) : Option (List Nat × List Nat) :=
  if n ≤ t.length then some (t.drop n, t.take n) else none

/-- Whether a byte is not the NUL terminator. -/
def nonNul (b : Nat) : Bool :=
  b ≠ 0

/-- Embeds nom's `take_until("\0")` applied to a byte buffer: the bytes
strictly before the first NUL byte, failing when there is none. -/
def takeUntilNul (t : List Nat) : Option (List Nat) :=
  if 0 ∈ t then some (t.takeWhile nonNul) else none

/-- Whether `b` is a UTF-8 continuation byte (`0x80..=0xBF`). -/
def utf8ContByte (b : Nat) : Bool :=
  decide (0x80 ≤ b) && decide (b ≤ 0xBF)

/-- Validity of a byte sequence as UTF-8, the check performed by Rust's
`str::from_utf8` (RFC 3629: no overlong forms, no surrogates, no code
points above U+10FFFF). -/
def utf8Valid : List Nat → Bool
  | [] => true
  | b :: rest =>
    if b ≤ 0x7F then utf8Valid rest
    else if 0xC2 ≤ b ∧ b ≤ 0xDF then
      match rest with
      | c :: rest2 => utf8ContByte c && utf8Valid rest2
      | [] => false
    else if b = 0xE0 then
      match rest with
      | c :: d :: rest2 =>
        (decide (0xA0 ≤ c) && decide (c ≤ 0xBF)) && utf8ContByte d && utf8Valid rest2
      | _ => false
    else if (0xE1 ≤ b ∧ b ≤ 0xEC) ∨ b = 0xEE ∨ b = 0xEF then
      match rest with
      | c :: d :: rest2 => utf8ContByte c && utf8ContByte d && utf8Valid rest2
      | _ => false
    else if b = 0xED then
      match rest with
      | c :: d :: rest2 =>
        (decide (0x80 ≤ c) && decide (c ≤ 0x9F)) && utf8ContByte d && utf8Valid rest2
      | _ => false
    else if b = 0xF0 then
      match rest with
      | c :: d :: e :: rest2 =>
        (decide (0x90 ≤ c) && decide (c ≤ 0xBF)) && utf8ContByte d && utf8ContByte e
          && utf8Valid rest2
      | _ => false
    else if 0xF1 ≤ b ∧ b ≤ 0xF3 then
      match rest with
      | c :: d :: e :: rest2 =>
        utf8ContByte c && utf8ContByte d && utf8ContByte e && utf8Valid rest2
      | _ => false
    else if b = 0xF4 then
      match rest with
      | c :: d :: e :: rest2 =>
        (decide (0x80 ≤ c) && decide (c ≤ 0x8F)) && utf8ContByte d && utf8ContByte e
          && utf8Valid rest2
      | _ => false
    else false

/-- Embeds `take_str_of_size` (src/pac/parser.rs lines 77-82): take `size`
bytes, then parse the bytes before the first NUL as UTF-8; the returned
string is represented by its byte sequence. -/
def take_str_of_size (i : List Nat) (size : Nat) : Option (List Nat × List Nat) :=
  match takeBytes size i with
  | none => none
  | some (rest, bytes) =>
    match takeUntilNul bytes with
    | none => none
    | some name => if utf8Valid name then some (rest, name) else none

/-- Embeds `FileEntry` (src/pac/parser.rs): the in-memory entry record. -/
structure FileEntry where
  name : List Nat
  id : Nat
  offset : Nat
  size : Nat
deriving DecidableEq, Repr

/-- Embeds `NamedFile` (src/pac/parser.rs). -/
structure NamedFile where
  name : List Nat
  contents : List Nat
deriving DecidableEq, Repr

/-- Embeds `ParsedPac`: the metadata together with the extracted files. -/
structure ParsedPac where
  meta : PacMeta
  files : List NamedFile
deriving DecidableEq, Repr

/-- The nom error kinds produced on the embedded paths. -/
inductive NomErrorKind where
  | tag
  | eof
  | verify
deriving DecidableEq, Repr

/-- Embeds `PacError` (src/error.rs): `FileEntry` for a failed entry-table
parse, `Nom k` for an error of kind `k` wrapped by `from_error_kind`. -/
inductive PacError where
  | FileEntry
  | Nom (kind : NomErrorKind)
deriving DecidableEq, Repr

/-- Outcome of `pac::parser::parse`: success, an error `Result`, or a Rust
panic (`crash`, from the unchecked slice `&original_input[data_start..]`). -/
inductive ParseResult where
  | ok (p : ParsedPac)
  | err (e : PacError)
  | crash
deriving DecidableEq, Repr

/-- Embeds `parse_entry` (src/pac/parser.rs lines 59-75): name field,
`id`, `offset`, `size`, then `needed_to_align_with_excess (string_size +
0xC) 0x10` padding bytes. -/
def parse_entry (i : List Nat) (str_size : Nat) : Option (List Nat × FileEntry) :=
  match take_str_of_size i str_size with
  | none => none
  | some (i, file_name) =>
  match le_u32 i with
  | none => none
  | some (i, id) =>
  match le_u32 i with
  | none => none
  | some (i, offset) =>
  match le_u32 i with
  | none => none
  | some (i, size) =>
  match takeBytes (needed_to_align_with_excess (str_size + 12) 16) i with
  | none => none
  | some (i, _) => some (i, ⟨file_name, id, offset, size⟩)

/-- Embeds `nom::multi::count(|i| parse_entry(i, string_size), file_count)`:
`n` consecutive entry records. -/
def parse_entries (str_size : Nat) : Nat → List Nat → Option (List Nat × List FileEntry)
  | 0, i => some (i, [])
  | n + 1, i =>
    match parse_entry i str_size with
    | none => none
    | some (i, e) =>
      match parse_entries str_size n i with
      | none => none
      | some (i, es) => some (i, e :: es)

/-- Embeds the data-section loop of `parse` (src/pac/parser.rs lines
36-50): for each entry in table order, consume `entry.size` content bytes
then `needed_to_align entry.size 0x10` padding bytes from the running
cursor. -/
def read_files : List FileEntry → List Nat → Option (List NamedFile)
  | [], _ => some []
  | e :: es, data =>
    match takeBytes e.size data with
    | none => none
    | some (data, file_data) =>
      match takeBytes (needed_to_align e.size 16) data with
      | none => none
      | some (data, _) =>
        match read_files es data with
        | none => none
        | some files => some (⟨e.name, file_data⟩ :: files)

/-- Continuation of `parse` after the header fields have been read: the
entry table (whose failure becomes `PacError.FileEntry`), the slice
`&original_input[data_start..]` (a panic — `crash` — when `data_start`
exceeds the buffer length), and the sequential data-section loop. -/
def parse_after_header (input : List Nat)
    (data_start file_count unknown str_size : Nat) (i : List Nat) : ParseResult :=
  match parse_entries str_size file_count i with
  | none => .err .FileEntry
  | some (_, entries) =>
    if input.length < data_start then .crash
    else
      match read_files entries (input.drop data_start) with
      | none => .err (.Nom .eof)
      | some files =>
        .ok ⟨⟨unknown, entries.map (fun e => ⟨e.name, e.id⟩)⟩, files⟩

/-- The magic literal `b"FPAC"`. -/
def fpacMagic : List Nat := [0x46, 0x50, 0x41, 0x43]

/-- Embeds `pac::parser::parse` (src/pac/parser.rs lines 16-58): magic tag,
five little-endian u32 header fields (`data_start`, `_total_size`,
`file_count` verified positive, `unknown`, `string_size`), 8 reserved
bytes, then `parse_after_header`. -/
def parse (input : List Nat) : ParseResult :=
  if input.take 4 ≠ fpacMagic then .err (.Nom .tag) else
  match le_u32 (input.drop 4) with
  | none => .err (.Nom .eof)
  | some (i, data_start) =>
  match le_u32 i with
  | none => .err (.Nom .eof)
  | some (i, _total_size) =>
  match le_u32 i with
  | none => .err (.Nom .eof)
  | some (i, file_count) =>
  if file_count = 0 then .err (.Nom .verify) else
  match le_u32 i with
  | none => .err (.Nom .eof)
  | some (i, unknown) =>
  match le_u32 i with
  | none => .err (.Nom .eof)
  | some (i, str_size) =>
  match takeBytes 8 i with
  | none => .err (.Nom .eof)
  | some (i, _) => parse_after_header input data_start file_count unknown str_size i

/-- On-disk size of one entry record for a given `string_size`: the name
field, 12 bytes of u32 fields, and the with-excess padding. -/
def recSize (str_size : Nat) : Nat :=
  str_size + 12 + needed_to_align_with_excess (str_size + 12) 16

/-- An entry with its advisory offset field zeroed: two entry lists with
equal `eraseOff` images carry the same names, ids and sizes. -/
def eraseOff (e : FileEntry) : FileEntry :=
  ⟨e.name, e.id, 0, e.size⟩

/-- Byte position `j` lies inside the 4-byte offset field of one of the
first `n` entry records (record `k` starts at `32 + k * R`, its name field
spans `S` bytes, its `id` the next 4, its offset the 4 after that). -/
def offsetFieldPos (S R n j : Nat) : Prop :=
  ∃ k, k < n ∧ 32 + k * R + S + 4 ≤ j ∧ j < 32 + k * R + S + 8

/-! ## Encoder-side quantities modelled from the spec

The repository's sources under src only carry the derived-size helpers
(`string_size`, `entry_size`, `to_entry_bytes`); the function assembling a
whole archive lives in an external crate. The three definitions below are
therefore modelled from the spec's encode steps 5-7. -/

/-- Modelled from the spec: `dataStart = 32 + entryTableSize` (encode step
5); the encode routine that computes it is not under src. -/
def spec_data_start (m : PacMeta) : Option Nat :=
  (entry_size m).map (fun t => 32 + t)

/-- Modelled from the spec: the data-section accumulation of encode step 6
— each entry's content followed by `needed_to_align size 16` zero bytes;
the encode routine that builds it is not under src. -/
def spec_data_section : List (List Nat) → List Nat
  | [] => []
  | c :: cs => c ++ List.replicate (needed_to_align c.length 16) 0 ++ spec_data_section cs

/-- Modelled from the spec: `totalSize = dataStart + data buffer length`
(encode step 7); the encode routine that computes it is not under src. -/
def spec_total_size (m : PacMeta) (contents : List (List Nat)) : Option Nat :=
  (spec_data_start m).map (fun d => d + (spec_data_section contents).length)

/-! ## Concrete input buffers -/

/-- A buffer whose header claims `dataStart = 100` while only 64 bytes are
present; the header and the single 32-byte entry record parse. -/
def c1buf : List Nat :=
  [0x46, 0x50, 0x41, 0x43, 100, 0, 0, 0, 64, 0, 0, 0, 1, 0, 0, 0,
   0, 0, 0, 0, 4, 0, 0, 0, 0, 0, 0, 0, 0, 0, 0, 0,
   97, 0, 0, 0, 1, 0, 0, 0, 0, 0, 0, 0, 0, 0, 0, 0,
   0, 0, 0, 0, 0, 0, 0, 0, 0, 0, 0, 0, 0, 0, 0, 0]

/-- A buffer whose header sends `dataStart = 32` back into the entry table
(`stringSize = 4`, one entry of size 16), so the decoded file content is
the entry record itself, offset field included. -/
def c2b1 : List Nat :=
  [0x46, 0x50, 0x41, 0x43, 32, 0, 0, 0, 64, 0, 0, 0, 1, 0, 0, 0,
   0, 0, 0, 0, 4, 0, 0, 0, 0, 0, 0, 0, 0, 0, 0, 0,
   97, 0, 0, 0, 1, 0, 0, 0, 0, 0, 0, 0, 16, 0, 0, 0,
   0, 0, 0, 0, 0, 0, 0, 0, 0, 0, 0, 0, 0, 0, 0, 0]

/-- `c2b1` with one byte of the first entry's offset field (absolute
position 40) changed. -/
def c2b2 : List Nat := c2b1.set 40 1

/-- A well-formed one-entry archive: `dataStart = 64` right after the
entry table, content `[0xAA, 0xBB, 0xCC]` padded to 16 bytes. -/
def c2wbuf : List Nat :=
  [0x46, 0x50, 0x41, 0x43, 64, 0, 0, 0, 80, 0, 0, 0, 1, 0, 0, 0,
   0, 0, 0, 0, 4, 0, 0, 0, 0, 0, 0, 0, 0, 0, 0, 0,
   97, 0, 0, 0, 1, 0, 0, 0, 0, 0, 0, 0, 3, 0, 0, 0,
   0, 0, 0, 0, 0, 0, 0, 0, 0, 0, 0, 0, 0, 0, 0, 0,
   0xAA, 0xBB, 0xCC, 0, 0, 0, 0, 0, 0, 0, 0, 0, 0, 0, 0, 0]

/-- The metadata of the spec's concrete scenario: one entry named
`test.bin` (bytes of the ASCII string), id 1. -/
def c5meta (u : Nat) : PacMeta :=
  ⟨u, [⟨[0x74, 0x65, 0x73, 0x74, 0x2E, 0x62, 0x69, 0x6E], 1⟩]⟩

/-! ## Helper lemmas -/

lemma length_to_fixed_length (s : List Nat) (n : Nat) :
    (to_fixed_length s n).length = n := by
  simp only [to_fixed_length, List.length_append, List.length_replicate, List.length_take]
  omega

lemma excess_pos (size : Nat) : 0 < needed_to_align_with_excess size 16 := by
  unfold needed_to_align_with_excess
  have h : size % 16 < 16 := Nat.mod_lt _ (by norm_num)
  omega

lemma excess_le (size : Nat) : needed_to_align_with_excess size 16 ≤ 16 := by
  unfold needed_to_align_with_excess
  omega

lemma takeBytes_of_le {n : Nat} {t : List Nat} (h : n ≤ t.length) :
    takeBytes n t = some (t.drop n, t.take n) := by
  unfold takeBytes
  rw [if_pos h]

lemma takeBytes_none {n : Nat} {t : List Nat} (h : t.length < n) :
    takeBytes n t = none := by
  unfold takeBytes
  rw [if_neg (by omega)]

lemma le_u32_of_le {t : List Nat} (h : 4 ≤ t.length) :
    le_u32 t = some (t.drop 4, leVal t) := by
  unfold le_u32
  rw [if_pos h]

lemma le_u32_none {t : List Nat} (h : t.length < 4) : le_u32 t = none := by
  unfold le_u32
  rw [if_neg (by omega)]

lemma recSize_lb (S : Nat) : S + 13 ≤ recSize S := by
  unfold recSize
  have h := excess_pos (S + 12)
  omega

/-! ## Claim theorems -/

/-- C4: for every `size` and positive `step`, `pad_to_nearest size step`
returns 0 when `size` is a multiple of `step` and otherwise the rounded-up
total `size + (step - size % step)`. -/
theorem c4_pad_to_nearest_cases (size step : Nat) (hstep : 0 < step) :
    (size % step = 0 → pad_to_nearest size step = 0) ∧
    (size % step ≠ 0 → pad_to_nearest size step = size + (step - size % step)) := by
  unfold pad_to_nearest
  constructor <;> intro h <;> simp [h]

theorem c4_witness :
    (24 % 16 = 0 → pad_to_nearest 24 16 = 0) ∧
    (24 % 16 ≠ 0 → pad_to_nearest 24 16 = 24 + (16 - 24 % 16)) :=
  c4_pad_to_nearest_cases 24 16 (by norm_num)

/-- C8: `to_fixed_length s n` always returns exactly `n` bytes; when
`s.length ≤ n` it is `s` followed by zero padding, and when `n < s.length`
it is the first `n` bytes of `s`; it never fails. -/
theorem c8_to_fixed_length_spec (s : List Nat) (n : Nat) :
    (to_fixed_length s n).length = n ∧
    (s.length ≤ n → to_fixed_length s n = s ++ List.replicate (n - s.length) 0) ∧
    (n < s.length → to_fixed_length s n = s.take n) := by
  refine ⟨length_to_fixed_length s n, fun h => ?_, fun h => ?_⟩
  · simp [to_fixed_length, List.take_of_length_le h]
  · have hl : (s.take n).length = n := by
      simp only [List.length_take]
      omega
    simp [to_fixed_length, hl]

/-- C3: for every non-empty metadata whose longest file name is at most 3
bytes, the derived `string_size` is 4 (so `string_size + 12 = 16` is a
multiple of 16) and `entry_size` evaluates to `some 0` despite the entry
list being non-empty. -/
theorem c3_entry_size_zero (m : PacMeta) (hne : m.file_entries ≠ [])
    (hshort : ∀ e ∈ m.file_entries, e.file_name.length ≤ 3) :
    string_size m = some 4 ∧ entry_size m = some 0 := by
  obtain ⟨a, ha⟩ :
      ∃ a, (m.file_entries.map (fun e => e.file_name.length)).max? = some a := by
    cases h : (m.file_entries.map (fun e => e.file_name.length)).max? with
    | none =>
      rw [List.max?_eq_none_iff, List.map_eq_nil_iff] at h
      exact absurd h hne
    | some a => exact ⟨a, rfl⟩
  have hmem : a ∈ m.file_entries.map (fun e => e.file_name.length) :=
    List.max?_mem (fun x y => max_choice x y) ha
  obtain ⟨e, he, hae⟩ := List.mem_map.mp hmem
  have ha3 : a ≤ 3 := hae ▸ hshort e he
  have hs : string_size m = some 4 := by
    unfold string_size
    rw [ha]
    show some (pad_to_nearest_with_excess a 4) = some 4
    unfold pad_to_nearest_with_excess
    have hm : a % 4 = a := Nat.mod_eq_of_lt (by omega)
    rw [hm]
    simp only [Option.some.injEq]
    omega
  refine ⟨hs, ?_⟩
  unfold entry_size
  rw [hs]
  show some (pad_to_nearest (4 + 12) 16 * m.file_entries.length) = some 0
  norm_num [pad_to_nearest]

theorem c3_witness :
    string_size (PacMeta.mk 0 [PacMetaEntry.mk [97] 1]) = some 4 ∧
    entry_size (PacMeta.mk 0 [PacMetaEntry.mk [97] 1]) = some 0 :=
  c3_entry_size_zero (PacMeta.mk 0 [PacMetaEntry.mk [97] 1]) (by decide) (by decide)

/-- C5: the spec's concrete scenario — one entry named `test.bin` (8
bytes), id 1, content `[0xAA, 0xBB, 0xCC]` — yields `stringSize = 12`,
`entryRecordSize = 32` (one-entry table size 32), `dataStart = 64`, a data
section of the 3 content bytes plus 13 zero bytes (16 total), and
`totalSize = 80`. -/
theorem c5_concrete_scenario (u : Nat) :
    string_size (c5meta u) = some 12 ∧
    pad_to_nearest (12 + 12) 16 = 32 ∧
    entry_size (c5meta u) = some 32 ∧
    spec_data_start (c5meta u) = some 64 ∧
    spec_data_section [[0xAA, 0xBB, 0xCC]] = [0xAA, 0xBB, 0xCC] ++ List.replicate 13 0 ∧
    (spec_data_section [[0xAA, 0xBB, 0xCC]]).length = 16 ∧
    spec_total_size (c5meta u) [[0xAA, 0xBB, 0xCC]] = some 80 :=
  ⟨rfl, rfl, rfl, rfl, rfl, rfl, rfl⟩

/-- C1: a 64-byte buffer whose parsable header claims `dataStart = 100`:
the entry table parses, the buffer is shorter than `dataStart`, and the
decoder reaches the unchecked slice `&original_input[data_start..]` — the
Rust code panics (`crash`) instead of returning the truncation error the
spec promises for the data section. -/
theorem c1_short_buffer_crashes :
    leVal (c1buf.drop 4) = 100 ∧ c1buf.length = 64 ∧ parse c1buf = ParseResult.crash :=
  ⟨by decide, by decide, by decide⟩

/-- C7: over a `stringSize`-byte name field, entry decoding fails when the
field contains no NUL byte, fails when the bytes before the first NUL are
not valid UTF-8, and otherwise returns exactly the bytes before the first
NUL as the name. -/
theorem c7_name_field_decode (field rest : List Nat) (S : Nat) (hS : field.length = S) :
    (0 ∉ field → take_str_of_size (field ++ rest) S = none) ∧
    (0 ∈ field → utf8Valid (field.takeWhile nonNul) = false →
      take_str_of_size (field ++ rest) S = none) ∧
    (0 ∈ field → utf8Valid (field.takeWhile nonNul) = true →
      take_str_of_size (field ++ rest) S = some (rest, field.takeWhile nonNul)) := by
  have hlen : S ≤ (field ++ rest).length := by
    rw [List.length_append]
    omega
  have htake : (field ++ rest).take S = field := List.take_left' hS
  have hdrop : (field ++ rest).drop S = rest := List.drop_left' hS
  refine ⟨fun h => ?_, fun h hv => ?_, fun h hv => ?_⟩
  · simp [take_str_of_size, takeBytes_of_le hlen, takeUntilNul, htake, hdrop, h]
  · simp [take_str_of_size, takeBytes_of_le hlen, takeUntilNul, htake, hdrop, h, hv]
  · simp [take_str_of_size, takeBytes_of_le hlen, takeUntilNul, htake, hdrop, h, hv]

theorem c7_witness :
    (0 ∉ ([97, 0, 98] : List Nat) → take_str_of_size ([97, 0, 98] ++ [5]) 3 = none) ∧
    (0 ∈ ([97, 0, 98] : List Nat) →
      utf8Valid (([97, 0, 98] : List Nat).takeWhile nonNul) = false →
      take_str_of_size ([97, 0, 98] ++ [5]) 3 = none) ∧
    (0 ∈ ([97, 0, 98] : List Nat) →
      utf8Valid (([97, 0, 98] : List Nat).takeWhile nonNul) = true →
      take_str_of_size ([97, 0, 98] ++ [5]) 3 =
        some ([5], ([97, 0, 98] : List Nat).takeWhile nonNul)) :=
  c7_name_field_decode [97, 0, 98] [5] 3 rfl

/-- C10: decoding does not inspect the bytes after the first NUL of a name
field: two fields of the same size that agree on all bytes up to and
including the first NUL decode to the same name, whatever follows the
NUL. -/
theorem c10_bytes_after_nul_ignored (pre t1 t2 r1 r2 : List Nat)
    (hpre : ∀ b ∈ pre, b ≠ 0) (hlen : t1.length = t2.length) :
    (take_str_of_size ((pre ++ 0 :: t1) ++ r1) (pre.length + 1 + t1.length)).map Prod.snd =
    (take_str_of_size ((pre ++ 0 :: t2) ++ r2) (pre.length + 1 + t2.length)).map Prod.snd := by
  have key : ∀ (t r : List Nat),
      take_str_of_size ((pre ++ 0 :: t) ++ r) (pre.length + 1 + t.length) =
      if utf8Valid pre = true then some (r, pre) else none := by
    intro t r
    have hfl : (pre ++ 0 :: t).length = pre.length + 1 + t.length := by
      simp
      omega
    have hlen2 : pre.length + 1 + t.length ≤ ((pre ++ 0 :: t) ++ r).length := by
      simp
      omega
    have htw : (pre ++ 0 :: t).takeWhile nonNul = pre := by
      rw [List.takeWhile_append_of_pos (by intro a ha; simpa [nonNul] using hpre a ha)]
      simp [nonNul]
    have hmem : 0 ∈ pre ++ 0 :: t := by simp
    unfold take_str_of_size
    rw [takeBytes_of_le hlen2, List.take_left' hfl, List.drop_left' hfl]
    dsimp only
    unfold takeUntilNul
    rw [if_pos hmem, htw]
  rw [key t1 r1, key t2 r2]
  by_cases hv : utf8Valid pre = true <;> simp [hv]

theorem c10_witness :
    (take_str_of_size (([97] ++ 0 :: [98]) ++ [1]) (1 + 1 + 1)).map Prod.snd =
    (take_str_of_size (([97] ++ 0 :: [99]) ++ [2]) (1 + 1 + 1)).map Prod.snd :=
  c10_bytes_after_nul_ignored [97] [98] [99] [1] [2] (by decide) rfl

/-- Characterization of `parse_entry`: it succeeds exactly when the input
holds a full `recSize S` record whose name field contains a NUL and whose
pre-NUL bytes are valid UTF-8, and then consumes exactly `recSize S`
bytes, returning the pre-NUL name and the three little-endian u32 fields
at offsets `S`, `S + 4`, `S + 8`. -/
lemma parse_entry_eq (i : List Nat) (S : Nat) :
    parse_entry i S =
      if recSize S ≤ i.length ∧ 0 ∈ i.take S ∧
          utf8Valid ((i.take S).takeWhile nonNul) = true then
        some (i.drop (recSize S),
          ⟨(i.take S).takeWhile nonNul, leVal (i.drop S),
            leVal (i.drop (S + 4)), leVal (i.drop (S + 8))⟩)
      else none := by
  have hrs : recSize S = S + 12 + needed_to_align_with_excess (S + 12) 16 := rfl
  by_cases h1 : S ≤ i.length
  case neg =>
    rw [if_neg (by have := recSize_lb S; omega)]
    simp [parse_entry, take_str_of_size, takeBytes_none (show i.length < S by omega)]
  case pos =>
  by_cases h2 : 0 ∈ i.take S
  case neg =>
    rw [if_neg (by tauto)]
    simp [parse_entry, take_str_of_size, takeBytes_of_le h1, takeUntilNul, h2]
  case pos =>
  by_cases h3 : utf8Valid ((i.take S).takeWhile nonNul) = true
  case neg =>
    rw [if_neg (by tauto)]
    simp [parse_entry, take_str_of_size, takeBytes_of_le h1, takeUntilNul, h2, h3]
  case pos =>
  by_cases h4 : recSize S ≤ i.length
  case pos =>
    have k1 : le_u32 (i.drop S) = some (i.drop (S + 4), leVal (i.drop S)) := by
      rw [le_u32_of_le (by simp; omega), List.drop_drop]
    have k2 : le_u32 (i.drop (S + 4)) = some (i.drop (S + 8), leVal (i.drop (S + 4))) := by
      rw [le_u32_of_le (by simp; omega), List.drop_drop]
    have k3 : le_u32 (i.drop (S + 8)) = some (i.drop (S + 12), leVal (i.drop (S + 8))) := by
      rw [le_u32_of_le (by simp; omega), List.drop_drop]
    have k4 : takeBytes (needed_to_align_with_excess (S + 12) 16) (i.drop (S + 12)) =
        some (i.drop (recSize S),
          (i.drop (S + 12)).take (needed_to_align_with_excess (S + 12) 16)) := by
      rw [takeBytes_of_le (by simp; omega), List.drop_drop, hrs]
    rw [if_pos ⟨h4, h2, h3⟩]
    simp [parse_entry, take_str_of_size, takeBytes_of_le h1, takeUntilNul, h2, h3,
      k1, k2, k3, k4]
  case neg =>
    rw [if_neg (by tauto)]
    by_cases m1 : S + 4 ≤ i.length
    case neg =>
      have k : le_u32 (i.drop S) = none := le_u32_none (by simp; omega)
      simp [parse_entry, take_str_of_size, takeBytes_of_le h1, takeUntilNul, h2, h3, k]
    case pos =>
    have k1 : le_u32 (i.drop S) = some (i.drop (S + 4), leVal (i.drop S)) := by
      rw [le_u32_of_le (by simp; omega), List.drop_drop]
    by_cases m2 : S + 8 ≤ i.length
    case neg =>
      have k : le_u32 (i.drop (S + 4)) = none := le_u32_none (by simp; omega)
      simp [parse_entry, take_str_of_size, takeBytes_of_le h1, takeUntilNul, h2, h3, k1, k]
    case pos =>
    have k2 : le_u32 (i.drop (S + 4)) = some (i.drop (S + 8), leVal (i.drop (S + 4))) := by
      rw [le_u32_of_le (by simp; omega), List.drop_drop]
    by_cases m3 : S + 12 ≤ i.length
    case neg =>
      have k : le_u32 (i.drop (S + 8)) = none := le_u32_none (by simp; omega)
      simp [parse_entry, take_str_of_size, takeBytes_of_le h1, takeUntilNul, h2, h3,
        k1, k2, k]
    case pos =>
    have k3 : le_u32 (i.drop (S + 8)) = some (i.drop (S + 12), leVal (i.drop (S + 8))) := by
      rw [le_u32_of_le (by simp; omega), List.drop_drop]
    have k4 : takeBytes (needed_to_align_with_excess (S + 12) 16) (i.drop (S + 12)) = none :=
      takeBytes_none (by simp; omega)
    simp [parse_entry, take_str_of_size, takeBytes_of_le h1, takeUntilNul, h2, h3,
      k1, k2, k3, k4]

/-- C9: writer and reader agree on the entry-record byte size: for positive
`stringSize`, `to_entry_bytes` emits exactly `stringSize + 12 +
neededToAlignWithExcess (stringSize + 12) 16` bytes (`recSize`), a
successful `parse_entry` consumes exactly that many bytes, and this count
strictly exceeds `stringSize + 12` (at least one padding byte). -/
theorem c9_record_size_agreement (S : Nat) (hS : 0 < S) (e : PacMetaEntry) (off sz : Nat) :
    (to_entry_bytes e off sz S).length = recSize S ∧
    (∀ i rest fe, parse_entry i S = some (rest, fe) →
      i.length = recSize S + rest.length) ∧
    S + 12 < recSize S := by
  refine ⟨?_, fun i rest fe h => ?_, by have := excess_pos (S + 12); unfold recSize; omega⟩
  · have hlen12 :
        (to_fixed_length e.file_name S ++ u32le e.file_id ++ u32le off ++ u32le sz).length
          = S + 12 := by
      simp [u32le, length_to_fixed_length]
    simp only [to_entry_bytes, List.length_append, List.length_replicate]
    simp only [List.length_append] at hlen12
    rw [hlen12]  -- may need adjusting
    rfl
  · rw [parse_entry_eq] at h
    by_cases hc : recSize S ≤ i.length ∧ 0 ∈ i.take S ∧
        utf8Valid ((i.take S).takeWhile nonNul) = true
    · rw [if_pos hc] at h
      simp only [Option.some.injEq, Prod.mk.injEq] at h
      obtain ⟨hr, -⟩ := h
      obtain ⟨hle, -, -⟩ := hc
      rw [← hr, List.length_drop]
      omega
    · rw [if_neg hc] at h
      cases h

theorem c9_witness :
    (to_entry_bytes (PacMetaEntry.mk [97] 1) 0 3 4).length = recSize 4 ∧
    (∀ i rest fe, parse_entry i 4 = some (rest, fe) →
      i.length = recSize 4 + rest.length) ∧
    4 + 12 < recSize 4 :=
  c9_record_size_agreement 4 (by norm_num) (PacMetaEntry.mk [97] 1) 0 3

/-- C6: a buffer whose first 4 bytes are not `FPAC` fails with the
magic-mismatch (tag) error before any entry is read; a buffer with
`fileCount = 0` fails with the zero-entries (verify) error; otherwise the
five little-endian u32 header fields are read at byte offsets 4, 8, 12,
16, 20 — in the order dataStart, totalSize, fileCount, unknownFlag,
stringSize — the 8 reserved bytes are skipped, and parsing continues at
offset 32. -/
theorem c6_header_decode (input : List Nat) :
    (input.take 4 ≠ fpacMagic → parse input = .err (.Nom .tag)) ∧
    (input.take 4 = fpacMagic → 16 ≤ input.length → leVal (input.drop 12) = 0 →
      parse input = .err (.Nom .verify)) ∧
    (input.take 4 = fpacMagic → 32 ≤ input.length → leVal (input.drop 12) ≠ 0 →
      parse input = parse_after_header input (leVal (input.drop 4))
        (leVal (input.drop 12)) (leVal (input.drop 16)) (leVal (input.drop 20))
        (input.drop 32)) := by
  have e1 : 8 ≤ input.length →
      le_u32 (input.drop 4) = some (input.drop 8, leVal (input.drop 4)) := fun h => by
    rw [le_u32_of_le (by simp; omega), List.drop_drop]
  have e2 : 12 ≤ input.length →
      le_u32 (input.drop 8) = some (input.drop 12, leVal (input.drop 8)) := fun h => by
    rw [le_u32_of_le (by simp; omega), List.drop_drop]
  have e3 : 16 ≤ input.length →
      le_u32 (input.drop 12) = some (input.drop 16, leVal (input.drop 12)) := fun h => by
    rw [le_u32_of_le (by simp; omega), List.drop_drop]
  have e4 : 20 ≤ input.length →
      le_u32 (input.drop 16) = some (input.drop 20, leVal (input.drop 16)) := fun h => by
    rw [le_u32_of_le (by simp; omega), List.drop_drop]
  have e5 : 24 ≤ input.length →
      le_u32 (input.drop 20) = some (input.drop 24, leVal (input.drop 20)) := fun h => by
    rw [le_u32_of_le (by simp; omega), List.drop_drop]
  have e6 : 32 ≤ input.length →
      takeBytes 8 (input.drop 24) = some (input.drop 32, (input.drop 24).take 8) :=
    fun h => by
      rw [takeBytes_of_le (by simp; omega), List.drop_drop]
  refine ⟨fun hm => ?_, fun hm hlen hzero => ?_, fun hm hlen hnz => ?_⟩
  · unfold parse
    rw [if_pos hm]
  · unfold parse
    rw [if_neg (not_not_intro hm)]
    simp only [e1 (by omega), e2 (by omega), e3 (by omega)]
    rw [if_pos hzero]
  · unfold parse
    rw [if_neg (not_not_intro hm)]
    simp only [e1 (by omega), e2 (by omega), e3 (by omega)]
    rw [if_neg hnz]
    simp only [e4 (by omega), e5 (by omega), e6 (by omega)]

/-! ## Agreement lemmas: decode only reads outside the offset fields -/

lemma take_eq_of_agree {b1 b2 : List Nat} {n : Nat} (hlen : b1.length = b2.length)
    (h : ∀ j, j < n → b1[j]? = b2[j]?) : b1.take n = b2.take n := by
  apply List.ext_getElem?
  intro m
  by_cases hm : m < n
  · rw [List.getElem?_take, List.getElem?_take, if_pos hm, if_pos hm]
    exact h m hm
  · rw [List.getElem?_take, List.getElem?_take, if_neg hm, if_neg hm]

lemma drop_eq_of_agree {b1 b2 : List Nat} {p : Nat}
    (h : ∀ j, p ≤ j → b1[j]? = b2[j]?) : b1.drop p = b2.drop p := by
  apply List.ext_getElem?
  intro m
  rw [List.getElem?_drop, List.getElem?_drop]
  exact h (p + m) (by omega)

lemma leVal_eq_of_agree {b1 b2 : List Nat} {p : Nat}
    (h : ∀ j, p ≤ j → j < p + 4 → b1[j]? = b2[j]?) :
    leVal (b1.drop p) = leVal (b2.drop p) := by
  unfold leVal
  simp only [List.getD_eq_getElem?_getD, List.getElem?_drop, Nat.add_zero]
  rw [h p (by omega) (by omega), h (p + 1) (by omega) (by omega),
    h (p + 2) (by omega) (by omega), h (p + 3) (by omega) (by omega)]

lemma eraseOff_fields {e1 e2 : FileEntry} (h : eraseOff e1 = eraseOff e2) :
    e1.name = e2.name ∧ e1.id = e2.id ∧ e1.size = e2.size := by
  unfold eraseOff at h
  rw [FileEntry.mk.injEq] at h
  exact ⟨h.1, h.2.1, h.2.2.2⟩

lemma map_meta_of_eraseOff : ∀ {es1 es2 : List FileEntry},
    es1.map eraseOff = es2.map eraseOff →
    es1.map (fun e => PacMetaEntry.mk e.name e.id)
      = es2.map (fun e => PacMetaEntry.mk e.name e.id) := by
  intro es1
  induction es1 with
  | nil =>
    intro es2 h
    cases es2 with
    | nil => rfl
    | cons e t => simp at h
  | cons e1 t1 ih =>
    intro es2 h
    cases es2 with
    | nil => simp at h
    | cons e2 t2 =>
      simp only [List.map_cons, List.cons.injEq] at h ⊢
      obtain ⟨hh, ht⟩ := h
      obtain ⟨hn, hi, -⟩ := eraseOff_fields hh
      exact ⟨by rw [hn, hi], ih ht⟩

lemma read_files_congr : ∀ (es1 : List FileEntry) {es2 : List FileEntry} (data : List Nat),
    es1.map eraseOff = es2.map eraseOff →
    read_files es1 data = read_files es2 data := by
  intro es1
  induction es1 with
  | nil =>
    intro es2 data h
    cases es2 with
    | nil => rfl
    | cons e t => simp at h
  | cons e1 t1 ih =>
    intro es2 data h
    cases es2 with
    | nil => simp at h
    | cons e2 t2 =>
      simp only [List.map_cons, List.cons.injEq] at h
      obtain ⟨hh, ht⟩ := h
      obtain ⟨hn, -, hs⟩ := eraseOff_fields hh
      unfold read_files
      rw [hn, hs]
      cases hk : takeBytes e2.size data with
      | none => rfl
      | some p =>
        obtain ⟨d2, fd⟩ := p
        dsimp only
        cases hk2 : takeBytes (needed_to_align e2.size 16) d2 with
        | none => rfl
        | some q =>
          obtain ⟨d3, pad⟩ := q
          dsimp only
          rw [ih d3 ht]

/-- One-step unfolding of `parse_entries` at a positive count. -/
lemma parse_entries_succ (S n : Nat) (t : List Nat) :
    parse_entries S (n + 1) t =
      match parse_entry t S with
      | none => none
      | some (i, e) =>
        match parse_entries S n i with
        | none => none
        | some (i2, es) => some (i2, e :: es) := rfl

lemma parse_entries_agree (S : Nat) :
    ∀ (n : Nat) (t1 t2 : List Nat), t1.length = t2.length →
    (∀ j, (∀ k, k < n → j < k * recSize S + S + 4 ∨ k * recSize S + S + 8 ≤ j) →
      t1[j]? = t2[j]?) →
    Option.map (fun p => p.2.map eraseOff) (parse_entries S n t1)
      = Option.map (fun p => p.2.map eraseOff) (parse_entries S n t2) := by
  intro n
  induction n with
  | zero => intro t1 t2 _ _; rfl
  | succ n ih =>
    intro t1 t2 hlen hagr
    have hR := recSize_lb S
    have htake : t1.take S = t2.take S :=
      take_eq_of_agree hlen (fun j hj => hagr j (fun k hk => Or.inl (by omega)))
    have hidv : leVal (t1.drop S) = leVal (t2.drop S) :=
      leVal_eq_of_agree (fun j h1 h2 => hagr j (fun k hk => Or.inl (by omega)))
    have hszv : leVal (t1.drop (S + 8)) = leVal (t2.drop (S + 8)) :=
      leVal_eq_of_agree (fun j h1 h2 => hagr j (fun k hk => by
        rcases Nat.eq_zero_or_pos k with hk0 | hkpos
        · subst hk0
          right
          omega
        · left
          have hkR : recSize S ≤ k * recSize S := Nat.le_mul_of_pos_left _ hkpos
          omega))
    rw [parse_entries_succ, parse_entries_succ, parse_entry_eq t1, parse_entry_eq t2]
    by_cases hc : recSize S ≤ t1.length ∧ 0 ∈ t1.take S ∧
        utf8Valid ((t1.take S).takeWhile nonNul) = true
    · have hc2 : recSize S ≤ t2.length ∧ 0 ∈ t2.take S ∧
          utf8Valid ((t2.take S).takeWhile nonNul) = true := by
        rw [← hlen, ← htake]
        exact hc
      rw [if_pos hc, if_pos hc2]
      dsimp only
      have hrec := ih (t1.drop (recSize S)) (t2.drop (recSize S))
        (by simp [hlen])
        (fun j hj => by
          rw [List.getElem?_drop, List.getElem?_drop]
          apply hagr
          intro k hk
          cases k with
          | zero => omega
          | succ m =>
            have hone : (m + 1) * recSize S = m * recSize S + recSize S := by ring
            rcases hj m (by omega) with h | h
            · left
              omega
            · right
              omega)
      cases hp1 : parse_entries S n (t1.drop (recSize S)) with
      | none =>
        cases hp2 : parse_entries S n (t2.drop (recSize S)) with
        | none => rfl
        | some p2 =>
          rw [hp1, hp2] at hrec
          simp at hrec
      | some p1 =>
        cases hp2 : parse_entries S n (t2.drop (recSize S)) with
        | none =>
          rw [hp1, hp2] at hrec
          simp at hrec
        | some p2 =>
          obtain ⟨r1, es1⟩ := p1
          obtain ⟨r2, es2⟩ := p2
          rw [hp1, hp2] at hrec
          simp only [Option.map_some', Option.some.injEq] at hrec
          dsimp only
          simp only [Option.map_some', Option.some.injEq, List.map_cons, List.cons.injEq]
          refine ⟨?_, hrec⟩
          unfold eraseOff
          dsimp only
          rw [htake, hidv, hszv]
    · have hc2 : ¬ (recSize S ≤ t2.length ∧ 0 ∈ t2.take S ∧
          utf8Valid ((t2.take S).takeWhile nonNul) = true) := by
        rw [← hlen, ← htake]
        exact hc
      rw [if_neg hc, if_neg hc2]

lemma le_u32_drop_step {b : List Nat} {p q : Nat} (hq : q = p + 4) (h : q ≤ b.length) :
    le_u32 (b.drop p) = some (b.drop q, leVal (b.drop p)) := by
  subst hq
  rw [le_u32_of_le (by simp; omega), List.drop_drop]

lemma takeBytes_drop_step {b : List Nat} {n p q : Nat} (hq : q = p + n) (h : q ≤ b.length) :
    takeBytes n (b.drop p) = some (b.drop q, (b.drop p).take n) := by
  subst hq
  rw [takeBytes_of_le (by simp; omega), List.drop_drop]

lemma parse_after_header_agree (b1 b2 : List Nat) (d n u S : Nat)
    (hlen : b1.length = b2.length)
    (hagree : ∀ j, ¬ offsetFieldPos S (recSize S) n j → b1[j]? = b2[j]?)
    (hsep : 32 + n * recSize S ≤ d) :
    parse_after_header b1 d n u S (b1.drop 32) =
      parse_after_header b2 d n u S (b2.drop 32) := by
  have hR := recSize_lb S
  have hent := parse_entries_agree S n (b1.drop 32) (b2.drop 32)
    (by simp [hlen])
    (fun j hj => by
      rw [List.getElem?_drop, List.getElem?_drop]
      apply hagree
      rintro ⟨k, hk, h1, h2⟩
      rcases hj k hk with h | h <;> omega)
  unfold parse_after_header
  cases hp1 : parse_entries S n (b1.drop 32) with
  | none =>
    cases hp2 : parse_entries S n (b2.drop 32) with
    | none => rfl
    | some p2 =>
      rw [hp1, hp2] at hent
      simp at hent
  | some p1 =>
    cases hp2 : parse_entries S n (b2.drop 32) with
    | none =>
      rw [hp1, hp2] at hent
      simp at hent
    | some p2 =>
      obtain ⟨r1, es1⟩ := p1
      obtain ⟨r2, es2⟩ := p2
      rw [hp1, hp2] at hent
      simp only [Option.map_some', Option.some.injEq] at hent
      dsimp only
      rw [← hlen]
      by_cases hcr : b1.length < d
      · rw [if_pos hcr, if_pos hcr]
      · rw [if_neg hcr, if_neg hcr]
        have hdata : b1.drop d = b2.drop d :=
          drop_eq_of_agree (fun j hj => hagree j (by
            rintro ⟨k, hk, h1, h2⟩
            have hmul : (k + 1) * recSize S ≤ n * recSize S :=
              Nat.mul_le_mul_right _ (by omega)
            have hone : (k + 1) * recSize S = k * recSize S + recSize S := by ring
            omega))
        rw [hdata, read_files_congr es1 (b2.drop d) hent]
        cases hrf : read_files es2 (b2.drop d) with
        | none => rfl
        | some files =>
          dsimp only
          rw [map_meta_of_eraseOff hent]

/-- C2 (amended): two buffers identical except inside the 4-byte offset
fields of entry records decode identically, provided the header's
`dataStart` is at least `32 + fileCount * entryRecordSize` (the data
section does not overlap the entry table); without that proviso the
claim fails, because a `dataStart` pointing back into the entry table
makes the sequential cursor re-read the offset bytes as file content. -/
theorem c2_offset_field_immaterial (b1 b2 : List Nat)
    (hlen : b1.length = b2.length)
    (hagree : ∀ j, ¬ offsetFieldPos (leVal (b1.drop 20)) (recSize (leVal (b1.drop 20)))
        (leVal (b1.drop 12)) j → b1[j]? = b2[j]?)
    (hsep : 32 + leVal (b1.drop 12) * recSize (leVal (b1.drop 20)) ≤ leVal (b1.drop 4)) :
    parse b1 = parse b2 := by
  have hne : ∀ j, j < 32 → b1[j]? = b2[j]? := by
    intro j hj
    apply hagree
    rintro ⟨k, hk, h1, h2⟩
    omega
  have htk : b1.take 4 = b2.take 4 := take_eq_of_agree hlen (fun j hj => hne j (by omega))
  have hv4 : leVal (b2.drop 4) = leVal (b1.drop 4) :=
    (leVal_eq_of_agree fun j h1 h2 => hne j (by omega)).symm
  have hv8 : leVal (b2.drop 8) = leVal (b1.drop 8) :=
    (leVal_eq_of_agree fun j h1 h2 => hne j (by omega)).symm
  have hv12 : leVal (b2.drop 12) = leVal (b1.drop 12) :=
    (leVal_eq_of_agree fun j h1 h2 => hne j (by omega)).symm
  have hv16 : leVal (b2.drop 16) = leVal (b1.drop 16) :=
    (leVal_eq_of_agree fun j h1 h2 => hne j (by omega)).symm
  have hv20 : leVal (b2.drop 20) = leVal (b1.drop 20) :=
    (leVal_eq_of_agree fun j h1 h2 => hne j (by omega)).symm
  unfold parse
  by_cases hm : b1.take 4 = fpacMagic
  case neg =>
    rw [if_pos hm, if_pos (show ¬ b2.take 4 = fpacMagic by rw [← htk]; exact hm)]
  case pos =>
  have hm2 : b2.take 4 = fpacMagic := by rw [← htk]; exact hm
  rw [if_neg (not_not_intro hm), if_neg (not_not_intro hm2)]
  by_cases h8 : 8 ≤ b1.length
  case neg =>
    rw [le_u32_none (show (b1.drop 4).length < 4 by simp; omega),
      le_u32_none (show (b2.drop 4).length < 4 by simp; omega)]
  case pos =>
  have a1 : le_u32 (b1.drop 4) = some (b1.drop 8, leVal (b1.drop 4)) :=
    le_u32_drop_step (by norm_num) (by omega)
  have b1' : le_u32 (b2.drop 4) = some (b2.drop 8, leVal (b2.drop 4)) :=
    le_u32_drop_step (by norm_num) (by omega)
  by_cases h12 : 12 ≤ b1.length
  case neg =>
    simp only [a1, b1']
    rw [le_u32_none (show (b1.drop 8).length < 4 by simp; omega),
      le_u32_none (show (b2.drop 8).length < 4 by simp; omega)]
  case pos =>
  have a2 : le_u32 (b1.drop 8) = some (b1.drop 12, leVal (b1.drop 8)) :=
    le_u32_drop_step (by norm_num) (by omega)
  have b2' : le_u32 (b2.drop 8) = some (b2.drop 12, leVal (b2.drop 8)) :=
    le_u32_drop_step (by norm_num) (by omega)
  by_cases h16 : 16 ≤ b1.length
  case neg =>
    simp only [a1, b1', a2, b2']
    rw [le_u32_none (show (b1.drop 12).length < 4 by simp; omega),
      le_u32_none (show (b2.drop 12).length < 4 by simp; omega)]
  case pos =>
  have a3 : le_u32 (b1.drop 12) = some (b1.drop 16, leVal (b1.drop 12)) :=
    le_u32_drop_step (by norm_num) (by omega)
  have b3' : le_u32 (b2.drop 12) = some (b2.drop 16, leVal (b2.drop 12)) :=
    le_u32_drop_step (by norm_num) (by omega)
  simp only [a1, b1', a2, b2', a3, b3', hv12]
  by_cases hz : leVal (b1.drop 12) = 0
  case pos => rw [if_pos hz, if_pos hz]
  case neg =>
  rw [if_neg hz, if_neg hz]
  by_cases h20 : 20 ≤ b1.length
  case neg =>
    rw [le_u32_none (show (b1.drop 16).length < 4 by simp; omega),
      le_u32_none (show (b2.drop 16).length < 4 by simp; omega)]
  case pos =>
  have a4 : le_u32 (b1.drop 16) = some (b1.drop 20, leVal (b1.drop 16)) :=
    le_u32_drop_step (by norm_num) (by omega)
  have b4' : le_u32 (b2.drop 16) = some (b2.drop 20, leVal (b2.drop 16)) :=
    le_u32_drop_step (by norm_num) (by omega)
  by_cases h24 : 24 ≤ b1.length
  case neg =>
    simp only [a4, b4']
    rw [le_u32_none (show (b1.drop 20).length < 4 by simp; omega),
      le_u32_none (show (b2.drop 20).length < 4 by simp; omega)]
  case pos =>
  have a5 : le_u32 (b1.drop 20) = some (b1.drop 24, leVal (b1.drop 20)) :=
    le_u32_drop_step (by norm_num) (by omega)
  have b5' : le_u32 (b2.drop 20) = some (b2.drop 24, leVal (b2.drop 20)) :=
    le_u32_drop_step (by norm_num) (by omega)
  by_cases h32 : 32 ≤ b1.length
  case neg =>
    simp only [a4, b4', a5, b5']
    rw [takeBytes_none (show (b1.drop 24).length < 8 by simp; omega),
      takeBytes_none (show (b2.drop 24).length < 8 by simp; omega)]
  case pos =>
  have a6 : takeBytes 8 (b1.drop 24) = some (b1.drop 32, (b1.drop 24).take 8) :=
    takeBytes_drop_step (by norm_num) (by omega)
  have b6' : takeBytes 8 (b2.drop 24) = some (b2.drop 32, (b2.drop 24).take 8) :=
    takeBytes_drop_step (by norm_num) (by omega)
  simp only [a4, b4', a5, b5', a6, b6', hv16, hv20, hv4]
  exact parse_after_header_agree b1 b2 _ _ _ _ hlen hagree hsep

/-- Counterexample to C2 as stated: `c2b1` and `c2b2` are identical except
at byte 40 — inside the 4-byte offset field of the first (and only) entry
record — yet they decode to different results, because the header's
`dataStart = 32` points back into the entry table and the sequential
cursor re-reads the offset bytes as file content. -/
theorem c2_counterexample :
    c2b2 = c2b1.set 40 1 ∧
    c2b1.length = c2b2.length ∧
    offsetFieldPos (leVal (c2b1.drop 20)) (recSize (leVal (c2b1.drop 20)))
      (leVal (c2b1.drop 12)) 40 ∧
    parse c2b1 ≠ parse c2b2 :=
  ⟨by decide, by decide, ⟨0, by decide, by decide, by decide⟩, by decide⟩

theorem c2_witness : parse c2wbuf = parse (c2wbuf.set 40 7) := by
  apply c2_offset_field_immaterial
  · simp
  · intro j hj
    rcases eq_or_ne j 40 with rfl | hne
    · exact absurd ⟨0, by decide, by decide, by decide⟩ hj
    · exact (List.getElem?_set_ne (Ne.symm hne)).symm
  · decide
